import Mathlib

/-
Verification of the fork-aware transaction-pool `ViewStore`
(substrate/client/transaction-pool/src/fork_aware_txpool/view_store.rs).

Block hashes, extrinsics, extrinsic hashes, errors and transaction sources
are all modelled as `Nat`.  `HashMap` is modelled as an association list
with unique-key-preserving insert (insert replaces any existing binding).
-/

/-- Modelled from the spec: `HashAndNumber` block descriptor used by
`TreeRoute` and `View::at` (sp_blockchain is not among the sources);
"View — identified by `(block_hash, block_number)`". -/
structure HashAndNumber where
  hash : Nat
  number : Nat
deriving DecidableEq

/-- Modelled from the spec: the external `View` collaborator (view.rs is not
among the sources).  Per spec section 6 a view exposes
`submit_many(source, txs) -> per-tx results` and
`submit_and_watch(source, tx) -> status-stream or error`; both behaviours
are kept abstract as function-valued fields so that the store's handling of
arbitrary view answers can be analysed. A successful watch is modelled as
`Except.ok ()` (the watcher stream itself is irrelevant to the store logic). -/
structure View where
  at_block : HashAndNumber
  submit_many : Nat → List Nat → List (Except Nat Nat)
  submit_and_watch_one : Nat → Nat → Except Nat Unit

/-- Modelled from the spec: `TreeRoute` (sp_blockchain is not among the
sources): "common_block() -> block descriptor; retracted() -> ordered list
of block descriptors; enacted() -> ordered list of block descriptors".
`retracted` is ordered from the old tip toward the common ancestor and
`enacted` from the common ancestor toward the new tip, matching the
source's doc comment in `find_best_view`. -/
structure TreeRoute where
  retracted : List HashAndNumber
  common_block : HashAndNumber
  enacted : List HashAndNumber
deriving DecidableEq

/-- Modelled from the spec: the external `ChainApi` collaborator:
"block_body(block_hash) -> optional list of extrinsics;
hash_and_length(extrinsic) -> (hash, byte length);
block_id_to_number(block_id) -> optional block number, or error". -/
structure ChainApi where
  block_body : Nat → Except Nat (Option (List Nat))
  hash_and_length : Nat → Nat × Nat
  block_id_to_number : Nat → Except Nat (Option Nat)

/-- Association-list model of the std `HashMap` the store keeps its views in. -/
structure HMap (α : Type) where
  entries : List (Nat × α)

/-- Lookup of the first binding of a key, `HashMap::get`. -/
def alist_find? {α : Type} : List (Nat × α) → Nat → Option α
  | [], _ => none
  | p :: rest, k => if p.1 = k then some p.2 else alist_find? rest k

def HMap.find? {α : Type} (m : HMap α) (k : Nat) : Option α :=
  alist_find? m.entries k

/-- `HashMap::contains_key`. -/
def HMap.contains {α : Type} (m : HMap α) (k : Nat) : Bool :=
  (m.find? k).isSome

/-- `HashMap::remove` (all bindings of the key are dropped; with unique keys
this is the single binding). -/
def HMap.erase {α : Type} (m : HMap α) (k : Nat) : HMap α :=
  ⟨m.entries.filter (fun p => !(p.1 == k))⟩

/-- `HashMap::insert`: replaces any existing binding of the key. -/
def HMap.insert {α : Type} (m : HMap α) (k : Nat) (v : α) : HMap α :=
  ⟨(k, v) :: (m.erase k).entries⟩

/-- `HashMap::retain`. -/
def HMap.retain {α : Type} (m : HMap α) (pred : Nat → α → Bool) : HMap α :=
  ⟨m.entries.filter (fun p => pred p.1 p.2)⟩

def HMap.empty {α : Type} : HMap α := ⟨[]⟩

def HMap.keys {α : Type} (m : HMap α) : List Nat := m.entries.map Prod.fst

/-- `HashMap::from_iter`: fold the pairs into an empty map, later bindings
overwriting earlier ones. -/
def hmFromIter {α : Type} (l : List (Nat × α)) : HMap α :=
  l.foldl (fun acc p => acc.insert p.1 p.2) HMap.empty

/-- The `ViewStore` state: `views` (active fork tips), `retracted_views`
(views superseded by `insert_new_view`), and `most_recent_view`
(view_store.rs lines 37-54).  The `api` and `listener` fields are modelled
as explicit parameters / event outputs of the operations that use them. -/
structure ViewStore where
  views : HMap View
  retracted_views : HMap View
  most_recent_view : Option Nat

/-- `ViewStore::new` (view_store.rs lines 62-70): empty maps, no most
recent view. -/
def ViewStore.new : ViewStore :=
  { views := HMap.empty, retracted_views := HMap.empty, most_recent_view := none }

/-- `ViewStore::submit_at` (view_store.rs lines 73-97): for every view in
`views`, pair the view's block hash with the view's `submit_many` answer for
the whole batch, and collect the pairs into a map. -/
def ViewStore.submit_at (s : ViewStore) (source : Nat) (xts : List Nat) :
    HMap (List (Except Nat Nat)) :=
  hmFromIter (s.views.entries.map
    (fun p => (p.2.at_block.hash, p.2.submit_many source xts)))

/-- The reshaping loop of `ViewStore::submit_one` (view_store.rs lines
105-115): for each per-view result vector, `pop` (take the LAST element) and
`expect` (panic when the vector is empty, modelled as `none`); earlier
elements of a longer vector are dropped without complaint. -/
def submit_one_reshape : List (Nat × List (Except Nat Nat)) →
    Option (List (Nat × Except Nat Nat))
  | [] => some []
  | p :: rest =>
    match p.2.getLast? with
    | none => none
    | some r =>
      match submit_one_reshape rest with
      | none => none
      | some out => some ((p.1, r) :: out)

/-- `ViewStore::submit_one` (view_store.rs lines 100-116): submit the single
transaction via `submit_at` and reshape the per-view singleton vectors;
`none` models the `expect` panic. -/
def ViewStore.submit_one (s : ViewStore) (source : Nat) (xt : Nat) :
    Option (List (Nat × Except Nat Nat)) :=
  submit_one_reshape (s.submit_at source [xt]).entries

def Except.is_ok {ε α : Type} : Except ε α → Bool
  | Except.ok _ => true
  | Except.error _ => false

def Except.is_err {ε α : Type} : Except ε α → Bool
  | Except.ok _ => false
  | Except.error _ => true

/-- `ViewStore::submit_and_watch` (view_store.rs lines 119-168): fan the
transaction out to every view; fold the per-view results with the source's
`reduce` closure (`if r.is_err() && v.is_ok() { r = v; } r`); if the reduce
result is an error return it, otherwise return the external watcher
(modelled from the spec: the Listener's `create_external_watcher_for_tx`
always yields a stream, modelled as `Except.ok ()`;
multi_view_listener.rs is not among the sources). -/
def ViewStore.submit_and_watch (s : ViewStore) (source : Nat) (xt : Nat) :
    Except Nat Unit :=
  let results := s.views.entries.map (fun p => p.2.submit_and_watch_one source xt)
  match results with
  | [] => Except.ok ()
  | r :: rest =>
    match rest.foldl (fun r v => if r.is_err && v.is_ok then v else r) r with
    | Except.error e => Except.error e
    | Except.ok _ => Except.ok ()

/-- `ViewStore::find_best_view` (view_store.rs lines 194-211): chain
`retracted`, the common block and `enacted`, reverse, and return the view of
the first block whose hash is a key of `views`. -/
def ViewStore.find_best_view (s : ViewStore) (tree_route : TreeRoute) :
    Option View :=
  let search :=
    (tree_route.retracted ++ [tree_route.common_block] ++ tree_route.enacted).reverse
  match search.find? (fun block => s.views.contains block.hash) with
  | some block => s.views.find? block.hash
  | none => none

/-- The `views_to_be_removed.retain(..)` loop of `ViewStore::insert_new_view`
(view_store.rs lines 292-300): walk the route hashes in order, moving any
hash with an active view from `views` into `retracted_views` and recording
it; hashes with no active view are skipped. Returns the updated `views`,
the updated `retracted_views` and the recorded (moved) hashes. -/
def move_views : List Nat → HMap View → HMap View →
    HMap View × HMap View × List Nat
  | [], views, retr => (views, retr, [])
  | h :: rest, views, retr =>
    match views.find? h with
    | some w =>
      let r := move_views rest (views.erase h) (retr.insert h w)
      (r.1, r.2.1, h :: r.2.2)
    | none => move_views rest views retr

/-- The hashes `insert_new_view` considers for removal: the common block
followed by the enacted path (view_store.rs lines 281-286). -/
def route_hashes (tree_route : TreeRoute) : List Nat :=
  (tree_route.common_block :: tree_route.enacted).map HashAndNumber.hash

/-- `ViewStore::insert_new_view` (view_store.rs lines 276-311): move every
route hash holding an active view into `retracted_views`, insert the new
view under its own block hash, set `most_recent_view`, and return the moved
hashes (subsequently sent to `listener.remove_view`). -/
def ViewStore.insert_new_view (s : ViewStore) (view : View)
    (tree_route : TreeRoute) : ViewStore × List Nat :=
  let r := move_views (route_hashes tree_route) s.views s.retracted_views
  ({ views := r.1.insert view.at_block.hash view,
     retracted_views := r.2.1,
     most_recent_view := some view.at_block.hash }, r.2.2)

/-- The per-block extrinsic-hash extraction of `ViewStore::finalize_route`
(view_store.rs lines 239-250): a failed `block_body` request or a missing
body yields the empty list (`unwrap_or_else(..None).unwrap_or_default()`),
otherwise each extrinsic is mapped to its canonical hash. -/
def block_extrinsic_hashes (api : ChainApi) (block : Nat) : List Nat :=
  (match api.block_body block with
   | Except.error _ => []
   | Except.ok none => []
   | Except.ok (some body) => body).map (fun e => (api.hash_and_length e).1)

/-- `ViewStore::finalize_route` (view_store.rs lines 229-263): visit the
route blocks in order followed by the finalized block, extending the
collected transaction-hash list with each block's extrinsic hashes and
issuing one `listener.finalize_transaction(tx_hash, block, index)` event per
extrinsic. Returns the collected hashes and the listener events. -/
def finalize_route (api : ChainApi) (finalized_hash : Nat)
    (tree_route : List Nat) : List Nat × List (Nat × Nat × Nat) :=
  (tree_route ++ [finalized_hash]).foldl
    (fun acc block =>
      let extrinsics := block_extrinsic_hashes api block
      let futs := extrinsics.enum.map (fun p => (p.2, block, p.1))
      (acc.1 ++ extrinsics, acc.2 ++ futs))
    ([], [])

/-- `ViewStore::handle_finalized` (view_store.rs lines 329-359): collect the
finalized transactions via `finalize_route`, resolve the finalized block's
number, and prune `views` and `retracted_views` with the source's two
`retain` closures.  `most_recent_view` is not touched. -/
def handle_finalized (api : ChainApi) (s : ViewStore) (finalized_hash : Nat)
    (tree_route : List Nat) : ViewStore × List Nat :=
  let finalized_xts := (finalize_route api finalized_hash tree_route).1
  let finalized_number := api.block_id_to_number finalized_hash
  let views' := s.views.retain (fun hash v =>
    match finalized_number with
    | Except.error _ => hash == finalized_hash
    | Except.ok none => hash == finalized_hash
    | Except.ok (some n) =>
      if v.at_block.number == n then hash == finalized_hash
      else decide (v.at_block.number > n))
  let retracted' := s.retracted_views.retain (fun _ v =>
    match finalized_number with
    | Except.error _ => false
    | Except.ok none => false
    | Except.ok (some n) => decide (v.at_block.number > n))
  ({ views := views', retracted_views := retracted',
     most_recent_view := s.most_recent_view }, finalized_xts)

/-- Iterated `insert_new_view` calls, for the sequence-level invariant
claims. -/
def applyCalls (s : ViewStore) : List (View × TreeRoute) → ViewStore
  | [] => s
  | c :: rest => applyCalls (s.insert_new_view c.1 c.2).1 rest

/-- Executable disjointness check of the two key sets. -/
def disjointKeysB (s : ViewStore) : Bool :=
  s.views.entries.all (fun p => !(s.retracted_views.contains p.1))

/- ### Map lemmas -/

lemma alist_find?_filter_ne {α : Type} (l : List (Nat × α)) (k k' : Nat)
    (h : k' ≠ k) :
    alist_find? (l.filter fun p => !(p.1 == k)) k' = alist_find? l k' := by
  induction l with
  | nil => rfl
  | cons p rest ih =>
    by_cases hpk : p.1 = k
    · have h1 : p.1 ≠ k' := by omega
      have h2 : ¬ (k = k') := by omega
      simp [List.filter_cons, alist_find?, hpk, h1, h2, ih]
    · simp [List.filter_cons, alist_find?, hpk, ih]

lemma alist_find?_filter_self {α : Type} (l : List (Nat × α)) (k : Nat) :
    alist_find? (l.filter fun p => !(p.1 == k)) k = none := by
  induction l with
  | nil => rfl
  | cons p rest ih =>
    by_cases hpk : p.1 = k
    · simp [List.filter_cons, hpk, ih]
    · simp [List.filter_cons, alist_find?, hpk, ih]

lemma HMap.find?_erase {α : Type} (m : HMap α) (k k' : Nat) :
    (m.erase k).find? k' = if k' = k then none else m.find? k' := by
  by_cases h : k' = k
  · simp [HMap.erase, HMap.find?, h, alist_find?_filter_self]
  · simp [HMap.erase, HMap.find?, h, alist_find?_filter_ne _ _ _ h]

lemma HMap.find?_insert {α : Type} (m : HMap α) (k : Nat) (v : α) (k' : Nat) :
    (m.insert k v).find? k' = if k' = k then some v else m.find? k' := by
  have he := HMap.find?_erase m k k'
  by_cases h : k' = k
  · simp [HMap.insert, HMap.find?, alist_find?, h]
  · have hk : k ≠ k' := fun hh => h hh.symm
    simp only [HMap.insert, HMap.find?, alist_find?, if_neg hk, if_neg h] at he ⊢
    exact he

/- ### Characterization of the retract-and-move loop of insert_new_view -/

lemma move_views_views_find (l : List Nat) (vs rs : HMap View) (k : Nat) :
    (move_views l vs rs).1.find? k = if k ∈ l then none else vs.find? k := by
  induction l generalizing vs rs with
  | nil => simp [move_views]
  | cons h rest ih =>
    by_cases hk : k = h
    · subst hk
      cases hv : vs.find? k with
      | none =>
        simp only [move_views, hv]
        rw [ih]
        by_cases hr : k ∈ rest <;> simp [hr, hv]
      | some w =>
        simp only [move_views, hv]
        rw [ih]
        by_cases hr : k ∈ rest <;> simp [hr, HMap.find?_erase]
    · cases hv : vs.find? h with
      | none =>
        simp only [move_views, hv]
        rw [ih]
        by_cases hr : k ∈ rest <;> simp [hr, hk]
      | some w =>
        simp only [move_views, hv]
        rw [ih]
        by_cases hr : k ∈ rest <;> simp [hr, hk, HMap.find?_erase]

lemma move_views_retr_find (l : List Nat) (vs rs : HMap View) (k : Nat) :
    (move_views l vs rs).2.1.find? k =
      match (if k ∈ l then vs.find? k else none) with
      | some w => some w
      | none => rs.find? k := by
  induction l generalizing vs rs with
  | nil => simp [move_views]
  | cons h rest ih =>
    by_cases hk : k = h
    · subst hk
      cases hv : vs.find? k with
      | none =>
        simp only [move_views, hv]
        rw [ih]
        by_cases hr : k ∈ rest <;> simp [hr, hv]
      | some w =>
        simp only [move_views, hv]
        rw [ih]
        by_cases hr : k ∈ rest <;>
          simp [hr, HMap.find?_erase, HMap.find?_insert]
    · cases hv : vs.find? h with
      | none =>
        simp only [move_views, hv]
        rw [ih]
        by_cases hr : k ∈ rest <;> simp [hr, hk]
      | some w =>
        simp only [move_views, hv]
        rw [ih]
        by_cases hr : k ∈ rest <;>
          simp [hr, hk, HMap.find?_erase, HMap.find?_insert]

/- ### from_iter over pairs with distinct keys -/

lemma foldl_insert_entries {α : Type} (l : List (Nat × α)) (m : HMap α)
    (h : (m.entries.map Prod.fst ++ l.map Prod.fst).Nodup) :
    (l.foldl (fun acc p => acc.insert p.1 p.2) m).entries =
      l.reverse ++ m.entries := by
  induction l generalizing m with
  | nil => simp
  | cons p rest ih =>
    have hk : p.1 ∉ m.entries.map Prod.fst := by
      have hd := (List.nodup_append.mp h).2.2
      intro hmem
      exact hd hmem (by simp)
    have herase : (m.erase p.1).entries = m.entries := by
      apply List.filter_eq_self.mpr
      intro q hq
      have hq1 : q.1 ≠ p.1 := by
        intro he
        exact hk (he ▸ List.mem_map_of_mem Prod.fst hq)
      simp [hq1]
    have hstep : m.insert p.1 p.2 = ⟨p :: m.entries⟩ := by
      simp [HMap.insert, herase]
    have hperm : (m.entries.map Prod.fst ++ p.1 :: rest.map Prod.fst).Perm
        (p.1 :: (m.entries.map Prod.fst ++ rest.map Prod.fst)) :=
      List.perm_middle
    have h' : ((⟨p :: m.entries⟩ : HMap α).entries.map Prod.fst ++
        rest.map Prod.fst).Nodup := by
      have := hperm.nodup (by simpa using h)
      simpa using this
    simp only [List.foldl_cons]
    rw [hstep, ih _ h']
    simp

lemma hmFromIter_entries {α : Type} (l : List (Nat × α))
    (h : (l.map Prod.fst).Nodup) : (hmFromIter l).entries = l.reverse := by
  have := foldl_insert_entries l HMap.empty (by simpa [HMap.empty] using h)
  simpa [hmFromIter, HMap.empty] using this

/- ### find?-then-get equals findSome? (for find_best_view) -/

lemma find_then_get_eq_findSome? (vs : HMap View) (l : List HashAndNumber) :
    (match l.find? (fun block => vs.contains block.hash) with
     | some block => vs.find? block.hash
     | none => none) = l.findSome? (fun block => vs.find? block.hash) := by
  induction l with
  | nil => rfl
  | cons b rest ih =>
    cases hv : vs.find? b.hash with
    | some w =>
      have hc : vs.contains b.hash = true := by simp [HMap.contains, hv]
      simp [List.find?_cons, hc, List.findSome?, hv]
    | none =>
      have hc : vs.contains b.hash = false := by simp [HMap.contains, hv]
      simp only [List.find?_cons, hc, List.findSome?, hv]
      exact ih

/- ### finalize_route loop flattening -/

lemma finalize_route_acc (api : ChainApi) (blocks : List Nat) (a : List Nat)
    (c : List (Nat × Nat × Nat)) :
    blocks.foldl
      (fun acc block =>
        let extrinsics := block_extrinsic_hashes api block
        let futs := extrinsics.enum.map (fun p => (p.2, block, p.1))
        (acc.1 ++ extrinsics, acc.2 ++ futs)) (a, c) =
      (a ++ blocks.flatMap (fun b => block_extrinsic_hashes api b),
       c ++ blocks.flatMap (fun b =>
         (block_extrinsic_hashes api b).enum.map (fun p => (p.2, b, p.1)))) := by
  induction blocks generalizing a c with
  | nil => simp
  | cons b rest ih => simp [List.foldl_cons, ih]

lemma finalize_route_eq (api : ChainApi) (finalized_hash : Nat)
    (tree_route : List Nat) :
    finalize_route api finalized_hash tree_route =
      ((tree_route ++ [finalized_hash]).flatMap
         (fun b => block_extrinsic_hashes api b),
       (tree_route ++ [finalized_hash]).flatMap (fun b =>
         (block_extrinsic_hashes api b).enum.map (fun p => (p.2, b, p.1)))) := by
  simpa [finalize_route] using
    finalize_route_acc api (tree_route ++ [finalized_hash]) [] []

/- ### submit_one reshaping lemmas -/

lemma submit_one_reshape_none_iff (l : List (Nat × List (Except Nat Nat))) :
    submit_one_reshape l = none ↔ ∃ p ∈ l, p.2 = [] := by
  induction l with
  | nil => simp [submit_one_reshape]
  | cons p rest ih =>
    cases hg : p.2.getLast? with
    | none =>
      have hpnil : p.2 = [] := List.getLast?_eq_none_iff.mp hg
      simp only [submit_one_reshape, hg]
      exact ⟨fun _ => ⟨p, by simp, hpnil⟩, fun _ => trivial⟩
    | some r =>
      have hpne : p.2 ≠ [] := by
        intro he
        rw [he] at hg
        simp at hg
      simp only [submit_one_reshape, hg]
      cases hr : submit_one_reshape rest with
      | none =>
        simp only [hr]
        constructor
        · intro _
          obtain ⟨q, hq, hq2⟩ := ih.mp hr
          exact ⟨q, List.mem_cons_of_mem _ hq, hq2⟩
        · intro _
          trivial
      | some out =>
        simp only [hr]
        constructor
        · intro hcontra
          cases hcontra
        · rintro ⟨q, hq, hq2⟩
          rcases List.mem_cons.mp hq with heq | hq'
          · exact absurd (heq ▸ hq2) hpne
          · have := ih.mpr ⟨q, hq', hq2⟩
            rw [this] at hr
            cases hr

lemma submit_one_reshape_some (l : List (Nat × List (Except Nat Nat)))
    (h : ∀ p ∈ l, p.2 ≠ []) :
    submit_one_reshape l =
      some (l.map (fun p => (p.1, (p.2.getLast?).getD (Except.error 0)))) := by
  induction l with
  | nil => rfl
  | cons p rest ih =>
    have hp := h p (by simp)
    cases hg : p.2.getLast? with
    | none => exact absurd (List.getLast?_eq_none_iff.mp hg) hp
    | some r =>
      have hrest := ih (fun q hq => h q (List.mem_cons_of_mem _ hq))
      simp only [submit_one_reshape, hg, hrest, List.map_cons]
      simp [hg]

/- ### the reduce of submit_and_watch -/

lemma watch_foldl_is_ok (l : List (Except Nat Unit)) (r : Except Nat Unit) :
    (l.foldl (fun r v => if r.is_err && v.is_ok then v else r) r).is_ok =
      (r.is_ok || l.any (fun v => v.is_ok)) := by
  induction l generalizing r with
  | nil => simp
  | cons v rest ih =>
    rw [List.foldl_cons, ih]
    cases r with
    | ok a => simp [Except.is_err, Except.is_ok]
    | error e =>
      cases v with
      | ok b => simp [Except.is_err, Except.is_ok]
      | error e2 => simp [Except.is_err, Except.is_ok]

lemma saw_code_ok_iff (results : List (Except Nat Unit)) :
    (match results with
     | [] => Except.ok ()
     | r :: rest =>
       match rest.foldl
           (fun (r v : Except Nat Unit) => if r.is_err && v.is_ok then v else r) r with
       | Except.error e => Except.error e
       | Except.ok _ => (Except.ok () : Except Nat Unit)).is_ok = true ↔
      (results = [] ∨ ∃ v ∈ results, v.is_ok = true) := by
  cases results with
  | nil => simp [Except.is_ok]
  | cons r rest =>
    have hfold := watch_foldl_is_ok rest r
    cases hfr : rest.foldl
        (fun (r v : Except Nat Unit) => if r.is_err && v.is_ok then v else r) r with
    | ok u =>
      rw [hfr] at hfold
      have hfold' : (r.is_ok || rest.any (fun v => v.is_ok)) = true := by
        rw [← hfold]
        rfl
      simp only [hfr]
      constructor
      · intro _
        rcases Bool.or_eq_true_iff.mp hfold' with hro | hany
        · exact Or.inr ⟨r, by simp, hro⟩
        · obtain ⟨v, hv, hvo⟩ := List.any_eq_true.mp hany
          exact Or.inr ⟨v, List.mem_cons_of_mem _ hv, hvo⟩
      · intro _
        rfl
    | error e =>
      rw [hfr] at hfold
      have hfold' : (r.is_ok || rest.any (fun v => v.is_ok)) = false := by
        rw [← hfold]
        rfl
      simp only [hfr]
      constructor
      · intro hcontra
        exact absurd hcontra (by simp [Except.is_ok])
      · rintro (hnil | ⟨v, hv, hvo⟩)
        · cases hnil
        · rcases List.mem_cons.mp hv with heq | hv'
          · rw [heq] at hvo
            simp [hvo] at hfold'
          · have hany : rest.any (fun v => v.is_ok) = true :=
              List.any_eq_true.mpr ⟨v, hv', hvo⟩
            simp [hany] at hfold'

/- ### submit_at entries under distinct view hashes -/

lemma submit_at_entries (s : ViewStore) (source : Nat) (xts : List Nat)
    (h : (s.views.entries.map (fun p => p.2.at_block.hash)).Nodup) :
    (s.submit_at source xts).entries =
      (s.views.entries.map
        (fun p => (p.2.at_block.hash, p.2.submit_many source xts))).reverse := by
  apply hmFromIter_entries
  rw [List.map_map]
  exact h

/-- Claim C2 (amended): `submit_and_watch` succeeds if and only if at least
one active view accepted the transaction OR the store holds zero active
views; equivalently it returns an error exactly when the view set is
nonempty and every view rejected the transaction.  (The claim's requirement
of an error for zero active views does not hold: see the counterexample.) -/
theorem C2_submit_and_watch_ok_iff (s : ViewStore) (source xt : Nat) :
    (s.submit_and_watch source xt).is_ok = true ↔
      (s.views.entries = [] ∨
        ∃ p ∈ s.views.entries,
          (p.2.submit_and_watch_one source xt).is_ok = true) := by
  have h := saw_code_ok_iff
    (s.views.entries.map (fun p => p.2.submit_and_watch_one source xt))
  have hdef : s.submit_and_watch source xt =
      (match s.views.entries.map (fun p => p.2.submit_and_watch_one source xt) with
       | [] => Except.ok ()
       | r :: rest =>
         match rest.foldl
             (fun (r v : Except Nat Unit) => if r.is_err && v.is_ok then v else r) r with
         | Except.error e => Except.error e
         | Except.ok _ => (Except.ok () : Except Nat Unit)) := rfl
  rw [hdef, h]
  constructor
  · rintro (hnil | ⟨v, hv, hvo⟩)
    · exact Or.inl (List.map_eq_nil_iff.mp hnil)
    · obtain ⟨p, hp, rfl⟩ := List.mem_map.mp hv
      exact Or.inr ⟨p, hp, hvo⟩
  · rintro (hnil | ⟨p, hp, hpo⟩)
    · exact Or.inl (by rw [hnil]; rfl)
    · exact Or.inr ⟨_, List.mem_map_of_mem _ hp, hpo⟩

/-- Claim C2 counterexample: with zero active views `submit_and_watch`
returns the external watcher (`Ok`), not an error — the empty `reduce`
yields `None`, so the error branch is skipped (view_store.rs lines
156-167), refuting "when the store holds zero active views,
submit_and_watch returns an error". -/
theorem C2_counterexample :
    ViewStore.new.views.entries = [] ∧
      ViewStore.new.submit_and_watch 0 0 = Except.ok () :=
  ⟨rfl, rfl⟩

/-- One view answering a single-transaction submission with TWO results
(a contract-violating collaborator, exactly the situation claim C3
quantifies over). -/
def viewC3 : View where
  at_block := ⟨1, 1⟩
  submit_many := fun _ _ => [Except.ok 5, Except.ok 7]
  submit_and_watch_one := fun _ _ => Except.ok ()

def storeC3 : ViewStore where
  views := ⟨[(1, viewC3)]⟩
  retracted_views := HMap.empty
  most_recent_view := none

/-- Claim C3 counterexample: when a view reports two results for the single
submitted transaction, `submit_one` does NOT panic; it silently keeps the
popped (last) result `Ok 7` and discards `Ok 5` (view_store.rs lines
107-114), refuting "signals a programming error … never silently discards
extra results". -/
theorem C3_counterexample :
    storeC3.submit_one 0 0 = some [(1, Except.ok 7)] ∧
      storeC3.submit_one 0 0 ≠ none := by
  constructor
  · rfl
  · intro hc
    rw [show storeC3.submit_one 0 0 = some [(1, Except.ok 7)] from rfl] at hc
    cases hc

/-- Claim C3 (amended): `submit_one` fails loudly (panics) exactly when some
view reports ZERO results for the single submitted transaction; when every
view reports at least one result it silently returns, per view, the LAST
reported result, discarding any earlier ones. -/
theorem C3_submit_one_behaviour (s : ViewStore) (source xt : Nat)
    (h : (s.views.entries.map (fun p => p.2.at_block.hash)).Nodup) :
    (s.submit_one source xt = none ↔
       ∃ p ∈ s.views.entries, p.2.submit_many source [xt] = []) ∧
    ((∀ p ∈ s.views.entries, p.2.submit_many source [xt] ≠ []) →
      s.submit_one source xt =
        some (s.views.entries.reverse.map (fun p =>
          (p.2.at_block.hash,
           ((p.2.submit_many source [xt]).getLast?).getD (Except.error 0))))) := by
  have hse := submit_at_entries s source [xt] h
  constructor
  · rw [show s.submit_one source xt =
        submit_one_reshape (s.submit_at source [xt]).entries from rfl, hse,
      submit_one_reshape_none_iff]
    constructor
    · rintro ⟨q, hq, hq2⟩
      rw [List.mem_reverse] at hq
      obtain ⟨p, hp, rfl⟩ := List.mem_map.mp hq
      exact ⟨p, hp, hq2⟩
    · rintro ⟨p, hp, hp2⟩
      exact ⟨(p.2.at_block.hash, p.2.submit_many source [xt]),
        List.mem_reverse.mpr (List.mem_map_of_mem _ hp), hp2⟩
  · intro hne
    rw [show s.submit_one source xt =
        submit_one_reshape (s.submit_at source [xt]).entries from rfl, hse,
      submit_one_reshape_some]
    · simp only [List.map_reverse, List.map_map]
      rfl
    · intro q hq
      rw [List.mem_reverse] at hq
      obtain ⟨p, hp, rfl⟩ := List.mem_map.mp hq
      exact hne p hp

/-- A well-behaved view answering one result for one transaction. -/
def viewC3W : View where
  at_block := ⟨2, 2⟩
  submit_many := fun _ _ => [Except.ok 3]
  submit_and_watch_one := fun _ _ => Except.ok ()

def storeC3W : ViewStore where
  views := ⟨[(2, viewC3W)]⟩
  retracted_views := HMap.empty
  most_recent_view := none

/-- Witness for C3's amended theorem at a concrete input. -/
theorem C3_witness : storeC3W.submit_one 0 0 = some [(2, Except.ok 3)] := by
  have h := (C3_submit_one_behaviour storeC3W 0 0 (by decide)).2
    (by
      intro p hp
      simp only [storeC3W, List.mem_singleton] at hp
      subst hp
      simp [viewC3W])
  exact h.trans rfl

/- ### find_best_view (C4) -/

lemma findSome?_eq_none_of_all {α β : Type} (l : List α) (f : α → Option β)
    (h : ∀ a ∈ l, f a = none) : l.findSome? f = none := by
  induction l with
  | nil => rfl
  | cons a rest ih =>
    have ha := h a (by simp)
    simp [List.findSome?, ha, ih (fun b hb => h b (List.mem_cons_of_mem _ hb))]

/-- Spec-side restatement of the C4 search order: the first hash, in the
order "enacted path from nearest the new head back to the common ancestor,
then the common ancestor, then the retracted path from the common ancestor
outward toward the old head", that has an active view. -/
def find_best_view_spec (s : ViewStore) (tree_route : TreeRoute) : Option View :=
  (tree_route.enacted.reverse ++ [tree_route.common_block] ++
    tree_route.retracted.reverse).findSome?
    (fun block => s.views.find? block.hash)

/-- The view at block E1 of the C4 example. -/
def viewE1 : View where
  at_block := ⟨1, 1⟩
  submit_many := fun _ _ => []
  submit_and_watch_one := fun _ _ => Except.error 0

/-- A store holding a view only at E1 (hash 1). -/
def storeE1 : ViewStore where
  views := ⟨[(1, viewE1)]⟩
  retracted_views := HMap.empty
  most_recent_view := none

/-- The C4 example route: retracted path R3,R2,R1 (hashes 13,12,11), common
block C (hash 0), enacted path E1,E2 (hashes 1,2). -/
def routeE : TreeRoute where
  retracted := [⟨13, 3⟩, ⟨12, 2⟩, ⟨11, 1⟩]
  common_block := ⟨0, 0⟩
  enacted := [⟨1, 1⟩, ⟨2, 2⟩]

/-- Claim C4: `find_best_view` returns the view of the first hash, in the
order enacted-path-reversed, common block, retracted-path-reversed, that is
a key of the active `views` map; it returns none when no hash on the route
has an active view; and on the example route with a view only at E1 it
returns that view. -/
theorem C4_find_best_view :
    (∀ (s : ViewStore) (tr : TreeRoute),
        s.find_best_view tr = find_best_view_spec s tr) ∧
    (∀ (s : ViewStore) (tr : TreeRoute),
        (∀ b ∈ tr.retracted ++ [tr.common_block] ++ tr.enacted,
          s.views.find? b.hash = none) →
        s.find_best_view tr = none) ∧
    storeE1.find_best_view routeE = some viewE1 := by
  have hmain : ∀ (s : ViewStore) (tr : TreeRoute),
      s.find_best_view tr = find_best_view_spec s tr := by
    intro s tr
    have h1 := find_then_get_eq_findSome? s.views
      ((tr.retracted ++ [tr.common_block] ++ tr.enacted).reverse)
    have h2 : (tr.retracted ++ [tr.common_block] ++ tr.enacted).reverse =
        tr.enacted.reverse ++ [tr.common_block] ++ tr.retracted.reverse := by
      simp [List.reverse_append, List.append_assoc]
    rw [show s.find_best_view tr =
        (match ((tr.retracted ++ [tr.common_block] ++ tr.enacted).reverse).find?
            (fun block => s.views.contains block.hash) with
         | some block => s.views.find? block.hash
         | none => none) from rfl, h1, h2]
    rfl
  refine ⟨hmain, fun s tr hnone => ?_, rfl⟩
  rw [hmain]
  apply findSome?_eq_none_of_all
  intro b hb
  apply hnone
  simp only [List.mem_append, List.mem_reverse, List.mem_singleton] at hb ⊢
  tauto

/-- Witness for C4's none conclusion at a concrete input: an empty store
finds no view on the example route. -/
theorem C4_witness : ViewStore.new.find_best_view routeE = none :=
  C4_find_best_view.2.1 ViewStore.new routeE (fun _ _ => rfl)

/- ### insert_new_view characterization (C1, C6) -/

lemma insert_new_view_views_find (s : ViewStore) (v : View) (tr : TreeRoute)
    (k : Nat) :
    (s.insert_new_view v tr).1.views.find? k =
      if k = v.at_block.hash then some v
      else if k ∈ route_hashes tr then none
      else s.views.find? k := by
  show ((move_views (route_hashes tr) s.views s.retracted_views).1.insert
      v.at_block.hash v).find? k = _
  rw [HMap.find?_insert, move_views_views_find]

lemma insert_new_view_retr_find (s : ViewStore) (v : View) (tr : TreeRoute)
    (k : Nat) :
    (s.insert_new_view v tr).1.retracted_views.find? k =
      match (if k ∈ route_hashes tr then s.views.find? k else none) with
      | some w => some w
      | none => s.retracted_views.find? k := by
  show (move_views (route_hashes tr) s.views s.retracted_views).2.1.find? k = _
  exact move_views_retr_find _ _ _ _

/-- Claim C1 (amended): starting from a store whose `views` and
`retracted_views` key sets are disjoint, after `insert_new_view(v, route)` a
block hash lies in BOTH maps exactly when it is the new view's own block
hash and that hash was either already a key of `retracted_views` or was an
active-view key on the route (and hence was moved to `retracted_views` by
this very call).  Disjointness is preserved at every other hash, but NOT at
the new view's hash in those two situations (the claim's universal
disjointness fails there: see the counterexample). -/
theorem C1_insert_disjointness (s : ViewStore) (v : View) (tr : TreeRoute)
    (hdisj : ∀ k, (s.views.find? k).isSome = true →
      (s.retracted_views.find? k).isSome = true → False) :
    ∀ k, (((s.insert_new_view v tr).1.views.find? k).isSome = true ∧
          ((s.insert_new_view v tr).1.retracted_views.find? k).isSome = true) ↔
      (k = v.at_block.hash ∧
        ((s.retracted_views.find? k).isSome = true ∨
          (k ∈ route_hashes tr ∧ (s.views.find? k).isSome = true))) := by
  intro k
  rw [insert_new_view_views_find, insert_new_view_retr_find]
  by_cases hk : k = v.at_block.hash
  · subst hk
    by_cases hr : v.at_block.hash ∈ route_hashes tr
    · cases hv : s.views.find? v.at_block.hash with
      | some w => simp [hr, hv]
      | none => simp [hr, hv]
    · simp [hr]
  · by_cases hr : k ∈ route_hashes tr
    · simp [hk, hr]
    · simp only [if_neg hk, if_neg hr]
      constructor
      · rintro ⟨h1, h2⟩
        exact (hdisj k h1 h2).elim
      · rintro ⟨hke, _⟩
        exact absurd hke hk

def cxView1 : View := ⟨⟨1, 1⟩, fun _ _ => [], fun _ _ => Except.error 0⟩
def cxView2 : View := ⟨⟨2, 2⟩, fun _ _ => [], fun _ _ => Except.error 0⟩
def cxView3 : View := ⟨⟨1, 3⟩, fun _ _ => [], fun _ _ => Except.error 0⟩

def cxRoute1 : TreeRoute := ⟨[], ⟨0, 0⟩, [⟨1, 1⟩]⟩

/-- Three `insert_new_view` calls: install at hash 1, supersede it by hash
2 (moving 1 into `retracted_views`), then install a new view at hash 1
again (whose route supersedes hash 2). -/
def cxCalls : List (View × TreeRoute) :=
  [(cxView1, cxRoute1),
   (cxView2, ⟨[], ⟨0, 0⟩, [⟨1, 1⟩, ⟨2, 2⟩]⟩),
   (cxView3, ⟨[], ⟨2, 2⟩, [⟨1, 3⟩]⟩)]

/-- Claim C1 counterexample: after the three-call sequence `cxCalls`
starting from the empty store, hash 1 is a key of BOTH `views` (the freshly
inserted view) and `retracted_views` (the view retired by the second call,
never cleaned up by the third), refuting the claimed invariant — the code
never removes the newly inserted hash from `retracted_views`
(view_store.rs lines 292-302). -/
theorem C1_counterexample :
    ((applyCalls ViewStore.new cxCalls).views.find? 1).isSome = true ∧
    ((applyCalls ViewStore.new cxCalls).retracted_views.find? 1).isSome = true ∧
    disjointKeysB (applyCalls ViewStore.new cxCalls) = false :=
  ⟨rfl, rfl, rfl⟩

/-- Witness for C1's amended theorem: inserting into the empty store leaves
hash 1 in at most one map. -/
theorem C1_witness :
    ¬ ((((ViewStore.new.insert_new_view cxView1 cxRoute1).1.views.find? 1).isSome
          = true) ∧
       (((ViewStore.new.insert_new_view cxView1
            cxRoute1).1.retracted_views.find? 1).isSome = true)) := by
  intro hboth
  have h := (C1_insert_disjointness ViewStore.new cxView1 cxRoute1
    (fun _ h1 _ => Bool.noConfusion h1) 1).mp hboth
  rcases h.2 with h2 | ⟨_, h3⟩
  · exact Bool.noConfusion h2
  · exact Bool.noConfusion h3

/-- Claim C6 (amended): after `insert_new_view(v, route)`, `views` maps v's
block hash to v and `most_recent_view` equals v's block hash; every route
hash (common block plus enacted path) that held an active view has that
view moved into `retracted_views`, and — unless that hash is the new view's
own hash, which `views` now maps to the new view — it is no longer in
`views`; route hashes with no active view are not added to
`retracted_views`; and hashes off the route (in particular the whole
retracted path, when disjoint from the route) keep their `retracted_views`
binding, and their `views` binding too when distinct from v's hash. -/
theorem C6_insert_new_view_post (s : ViewStore) (v : View) (tr : TreeRoute) :
    (s.insert_new_view v tr).1.views.find? v.at_block.hash = some v ∧
    (s.insert_new_view v tr).1.most_recent_view = some v.at_block.hash ∧
    (∀ h ∈ route_hashes tr, ∀ w, s.views.find? h = some w →
      (s.insert_new_view v tr).1.retracted_views.find? h = some w ∧
      (h ≠ v.at_block.hash → (s.insert_new_view v tr).1.views.find? h = none)) ∧
    (∀ h ∈ route_hashes tr, s.views.find? h = none →
      (s.insert_new_view v tr).1.retracted_views.find? h =
        s.retracted_views.find? h) ∧
    (∀ h, h ∉ route_hashes tr →
      (s.insert_new_view v tr).1.retracted_views.find? h =
        s.retracted_views.find? h ∧
      (h ≠ v.at_block.hash →
        (s.insert_new_view v tr).1.views.find? h = s.views.find? h)) := by
  refine ⟨?_, rfl, ?_, ?_, ?_⟩
  · rw [insert_new_view_views_find]
    simp
  · intro h hh w hw
    constructor
    · rw [insert_new_view_retr_find]
      simp [hh, hw]
    · intro hne
      rw [insert_new_view_views_find]
      simp [hne, hh]
  · intro h hh hnone
    rw [insert_new_view_retr_find]
    simp [hh, hnone]
  · intro h hh
    constructor
    · rw [insert_new_view_retr_find]
      simp [hh]
    · intro hne
      rw [insert_new_view_views_find]
      simp [hne, hh]

def viewC6 : View := ⟨⟨1, 1⟩, fun _ _ => [], fun _ _ => Except.error 0⟩

def storeC6 : ViewStore :=
  { views := ⟨[(1, viewC6)]⟩,
    retracted_views := HMap.empty,
    most_recent_view := some 1 }

def routeC6 : TreeRoute := ⟨[], ⟨0, 0⟩, [⟨1, 1⟩]⟩

/-- Claim C6 counterexample: re-inserting a view at a hash that lies on the
route's enacted path and currently holds that very view leaves the view in
BOTH `retracted_views` (moved there by the removal loop) and `views`
(re-inserted right after), refuting "that view now appears in
retracted_views and no longer in views". -/
theorem C6_counterexample :
    (storeC6.insert_new_view viewC6 routeC6).1.retracted_views.find? 1 =
      some viewC6 ∧
    (storeC6.insert_new_view viewC6 routeC6).1.views.find? 1 = some viewC6 :=
  ⟨rfl, rfl⟩

def viewC6b : View := ⟨⟨5, 5⟩, fun _ _ => [], fun _ _ => Except.error 0⟩
def viewC6c : View := ⟨⟨9, 9⟩, fun _ _ => [], fun _ _ => Except.error 0⟩

def storeC6b : ViewStore :=
  { views := ⟨[(5, viewC6b)]⟩,
    retracted_views := HMap.empty,
    most_recent_view := some 5 }

def routeC6b : TreeRoute := ⟨[], ⟨0, 0⟩, [⟨5, 5⟩, ⟨9, 9⟩]⟩

/-- Witness for C6's amended theorem at a concrete input: the active view at
route hash 5 is moved to `retracted_views` and leaves `views`. -/
theorem C6_witness :
    (storeC6b.insert_new_view viewC6c routeC6b).1.retracted_views.find? 5 =
      some viewC6b ∧
    (storeC6b.insert_new_view viewC6c routeC6b).1.views.find? 5 = none := by
  have h := (C6_insert_new_view_post storeC6b viewC6c routeC6b).2.2.1 5
    (by decide) viewC6b rfl
  exact ⟨h.1, h.2 (by decide)⟩

/-- Claim C5: after `handle_finalized`, when the finalized number does not
resolve, `views` keeps exactly the entry at `finalized_hash` and
`retracted_views` is emptied; when it resolves to `n`, `views` keeps exactly
the views with number strictly greater than `n` plus, at number `n`, only
the entry keyed by `finalized_hash`, and `retracted_views` keeps exactly the
views with number strictly greater than `n`. -/
theorem C5_handle_finalized_pruning (api : ChainApi) (s : ViewStore)
    (finalized_hash : Nat) (tree_route : List Nat) :
    (((∃ e, api.block_id_to_number finalized_hash = Except.error e) ∨
        api.block_id_to_number finalized_hash = Except.ok none) →
      ((∀ p, p ∈ (handle_finalized api s finalized_hash tree_route).1.views.entries ↔
          (p ∈ s.views.entries ∧ p.1 = finalized_hash)) ∧
       (handle_finalized api s finalized_hash
          tree_route).1.retracted_views.entries = [])) ∧
    (∀ n, api.block_id_to_number finalized_hash = Except.ok (some n) →
      ((∀ p, p ∈ (handle_finalized api s finalized_hash tree_route).1.views.entries ↔
          (p ∈ s.views.entries ∧
            (p.2.at_block.number > n ∨
              (p.2.at_block.number = n ∧ p.1 = finalized_hash)))) ∧
       (∀ p, p ∈ (handle_finalized api s finalized_hash
            tree_route).1.retracted_views.entries ↔
          (p ∈ s.retracted_views.entries ∧ p.2.at_block.number > n)))) := by
  constructor
  · intro hbad
    have hcases : ∀ (P : Prop), ((∃ e, api.block_id_to_number finalized_hash =
        Except.error e) → P) → (api.block_id_to_number finalized_hash =
        Except.ok none → P) → P := by
      intro P h1 h2
      rcases hbad with he | he
      · exact h1 he
      · exact h2 he
    constructor
    · intro p
      apply hcases
      · rintro ⟨e, he⟩
        simp [handle_finalized, HMap.retain, List.mem_filter, he]
      · intro he
        simp [handle_finalized, HMap.retain, List.mem_filter, he]
    · apply hcases
      · rintro ⟨e, he⟩
        simp [handle_finalized, HMap.retain, he]
      · intro he
        simp [handle_finalized, HMap.retain, he]
  · intro n hn
    constructor
    · intro p
      simp only [handle_finalized, HMap.retain, List.mem_filter, hn]
      apply and_congr_right
      intro _
      by_cases hnum : p.2.at_block.number = n
      · simp [hnum]
      · simp [hnum]
    · intro p
      simp [handle_finalized, HMap.retain, List.mem_filter, hn]

def viewC10 : View := ⟨⟨2, 4⟩, fun _ _ => [], fun _ _ => Except.error 0⟩

def apiC10 : ChainApi :=
  ⟨fun _ => Except.ok none, fun e => (e, 0), fun _ => Except.ok (some 5)⟩

def sC10 : ViewStore :=
  { views := ⟨[(2, viewC10)]⟩,
    retracted_views := HMap.empty,
    most_recent_view := some 2 }

/-- Claim C10: `handle_finalized` never modifies `most_recent_view`
(view_store.rs lines 329-359 touch only `views` and `retracted_views`),
even when — as in the concrete second conjunct, where the finalized number
resolves to 5 and prunes the view at hash 2 that `most_recent_view` names —
the pruning removes the very view it names. -/
theorem C10_handle_finalized_mrv :
    (∀ (api : ChainApi) (s : ViewStore) (finalized_hash : Nat)
        (tree_route : List Nat),
      (handle_finalized api s finalized_hash tree_route).1.most_recent_view =
        s.most_recent_view) ∧
    ((handle_finalized apiC10 sC10 9 []).1.views.find? 2 = none ∧
     (handle_finalized apiC10 sC10 9 []).1.most_recent_view = some 2) :=
  ⟨fun _ _ _ _ => rfl, rfl, rfl⟩

def viewC5a : View := ⟨⟨2, 4⟩, fun _ _ => [], fun _ _ => Except.error 0⟩
def viewC5b : View := ⟨⟨9, 5⟩, fun _ _ => [], fun _ _ => Except.error 0⟩
def viewC5c : View := ⟨⟨3, 4⟩, fun _ _ => [], fun _ _ => Except.error 0⟩

def apiC5ok : ChainApi :=
  ⟨fun _ => Except.ok none, fun e => (e, 0), fun _ => Except.ok (some 5)⟩

def apiC5err : ChainApi :=
  ⟨fun _ => Except.ok none, fun e => (e, 0), fun _ => Except.error 7⟩

def sC5 : ViewStore :=
  { views := ⟨[(2, viewC5a), (9, viewC5b)]⟩,
    retracted_views := ⟨[(3, viewC5c)]⟩,
    most_recent_view := some 9 }

/-- Witness for C5 at concrete inputs, in both resolution branches. -/
theorem C5_witness :
    ((9, viewC5b) ∈ (handle_finalized apiC5ok sC5 9 []).1.views.entries ↔
      ((9, viewC5b) ∈ sC5.views.entries ∧
        (viewC5b.at_block.number > 5 ∨
          (viewC5b.at_block.number = 5 ∧ (9 : Nat) = 9)))) ∧
    ((3, viewC5c) ∈ (handle_finalized apiC5ok sC5 9 []).1.retracted_views.entries ↔
      ((3, viewC5c) ∈ sC5.retracted_views.entries ∧
        viewC5c.at_block.number > 5)) ∧
    (handle_finalized apiC5err sC5 9 []).1.retracted_views.entries = [] := by
  have h1 := (C5_handle_finalized_pruning apiC5ok sC5 9 []).2 5 rfl
  have h2 := (C5_handle_finalized_pruning apiC5err sC5 9 []).1 (Or.inl ⟨7, rfl⟩)
  exact ⟨h1.1 (9, viewC5b), h1.2 (3, viewC5c), h2.2⟩

/-- Claim C7: against N active views (with pairwise distinct block hashes)
and M transactions, `submit_at` returns exactly N entries, keyed by the
views' block hashes, each holding exactly M per-transaction results
(provided each view answers one result per submitted transaction); with
zero active views it returns the empty mapping. -/
theorem C7_submit_at_shape (s : ViewStore) (source : Nat) (xts : List Nat)
    (hnodup : (s.views.entries.map (fun p => p.2.at_block.hash)).Nodup)
    (hlen : ∀ p ∈ s.views.entries, ∀ l : List Nat,
      (p.2.submit_many source l).length = l.length) :
    (s.submit_at source xts).entries.length = s.views.entries.length ∧
    (∀ q ∈ (s.submit_at source xts).entries, q.2.length = xts.length) ∧
    ((s.submit_at source xts).entries.map Prod.fst =
      (s.views.entries.map (fun p => p.2.at_block.hash)).reverse) ∧
    (s.views.entries = [] → (s.submit_at source xts).entries = []) := by
  have hse := submit_at_entries s source xts hnodup
  refine ⟨?_, ?_, ?_, ?_⟩
  · rw [hse]
    simp
  · intro q hq
    rw [hse, List.mem_reverse] at hq
    obtain ⟨p, hp, rfl⟩ := List.mem_map.mp hq
    exact hlen p hp xts
  · rw [hse, List.map_reverse, List.map_map]
    rfl
  · intro hnil
    rw [hse, hnil]
    rfl

def viewC7a : View :=
  ⟨⟨1, 1⟩, fun _ l => l.map (fun x => Except.ok x), fun _ _ => Except.ok ()⟩
def viewC7b : View :=
  ⟨⟨2, 2⟩, fun _ l => l.map (fun x => Except.ok (x + 1)), fun _ _ => Except.ok ()⟩

def storeC7 : ViewStore :=
  { views := ⟨[(1, viewC7a), (2, viewC7b)]⟩,
    retracted_views := HMap.empty,
    most_recent_view := some 2 }

/-- Witness for C7: two views, three transactions: two entries of three
results each, keyed by the views' hashes. -/
theorem C7_witness :
    (storeC7.submit_at 0 [10, 20, 30]).entries.length = 2 ∧
    (∀ q ∈ (storeC7.submit_at 0 [10, 20, 30]).entries, q.2.length = 3) ∧
    (storeC7.submit_at 0 [10, 20, 30]).entries.map Prod.fst = [2, 1] := by
  have h := C7_submit_at_shape storeC7 0 [10, 20, 30] (by decide)
    (by
      intro p hp l
      have hp2 : p = (1, viewC7a) ∨ p = (2, viewC7b) := by
        simpa [storeC7] using hp
      rcases hp2 with rfl | rfl
      · simp [viewC7a]
      · simp [viewC7b])
  exact ⟨h.1.trans rfl, fun q hq => h.2.1 q hq, h.2.2.1.trans rfl⟩

/-- Spec-side restatement of C8: the concatenation, over the route blocks
in order followed by the finalized block, of the canonical hashes of each
block's extrinsics in their within-block order. -/
def finalize_route_spec (api : ChainApi) (finalized_hash : Nat)
    (tree_route : List Nat) : List Nat :=
  (tree_route ++ [finalized_hash]).flatMap
    (fun b =>
      (match api.block_body b with
       | Except.error _ => []
       | Except.ok none => []
       | Except.ok (some body) => body).map (fun e => (api.hash_and_length e).1))

/-- Claim C8: `finalize_route` (and hence `handle_finalized`) returns the
full ordered list of finalized transaction hashes: blocks visited in route
order with the finalized block appended last, each contributing its
extrinsics' canonical hashes in within-block order. -/
theorem C8_finalize_route_concat (api : ChainApi) (s : ViewStore)
    (finalized_hash : Nat) (tree_route : List Nat) :
    (finalize_route api finalized_hash tree_route).1 =
      finalize_route_spec api finalized_hash tree_route ∧
    (handle_finalized api s finalized_hash tree_route).2 =
      finalize_route_spec api finalized_hash tree_route := by
  have h := finalize_route_eq api finalized_hash tree_route
  constructor
  · rw [h]
    rfl
  · show (finalize_route api finalized_hash tree_route).1 =
      finalize_route_spec api finalized_hash tree_route
    rw [h]
    rfl

/-- Claim C9: a block whose body fetch errors or reports no body
contributes an empty extrinsic list: it adds no hashes and no listener
finalization events, and the remaining blocks are processed exactly as if
the block were absent from the route. -/
theorem C9_finalize_route_skip (api : ChainApi) (finalized_hash b : Nat)
    (pre post : List Nat)
    (hbad : (∃ e, api.block_body b = Except.error e) ∨
      api.block_body b = Except.ok none) :
    block_extrinsic_hashes api b = [] ∧
    finalize_route api finalized_hash (pre ++ b :: post) =
      finalize_route api finalized_hash (pre ++ post) := by
  have hnil : block_extrinsic_hashes api b = [] := by
    rcases hbad with ⟨e, he⟩ | he <;> simp [block_extrinsic_hashes, he]
  refine ⟨hnil, ?_⟩
  rw [finalize_route_eq, finalize_route_eq]
  simp [List.flatMap_append, hnil]

def apiC9 : ChainApi :=
  ⟨fun h => if h = 4 then Except.error 1 else Except.ok (some [h + 100]),
   fun e => (e * 2, 1),
   fun _ => Except.ok (some 0)⟩

/-- Witness for C9: block 4's body fetch fails, so the route `[3, 4]`
finalizes exactly as `[3]` does. -/
theorem C9_witness :
    block_extrinsic_hashes apiC9 4 = [] ∧
    finalize_route apiC9 9 [3, 4] = finalize_route apiC9 9 [3] :=
  C9_finalize_route_skip apiC9 9 4 [3] [] (Or.inl ⟨1, rfl⟩)
